import Mathlib

/-!
Verification of the quiz-core of the `aegyo` Hangul quiz game.

The development shallowly embeds the two relevant components:

* `modules_vocabulary` — the current vocabulary store
  (`src/modules/vocabulary.cpp`): the static 40-entry table,
  `get_random_enabled_entry` and `generate_enabled_question_options`.
  The `std::unordered_map<Category, bool>` mask is modelled as
  `Category → Option Bool` (a key may be absent); `unordered_map::at`
  on a missing key becomes the `outOfRange` error of an `Except` monad,
  mirroring the `std::out_of_range` exception.  The uniform random index
  drawn by `core::math::rng::get_random_number(0, n-1)` is modelled by an
  arbitrary natural `r` reduced modulo the list length, and each
  `std::shuffle` call is modelled by an arbitrary permutation function
  supplied as a parameter (theorems assume it permutes its input).

* `core_vocabulary` — the legacy vocabulary store
  (`src/core/vocabulary.cpp`) whose queries return a `"N/A"` sentinel
  entry instead of signalling absence.  Its mask uses `operator[]`
  (never throws, all four keys present from construction), so it is
  modelled as a total function `Category → Bool`.

* `app` — the inlined quiz session state machine of `src/app.cpp`
  (`game_state_t`, the question-setup block, and the answer handling
  guarded by `current_game_state == waiting_for_answer` and
  `selected_idx < 4`).
-/

namespace modules_vocabulary

/-- The `Category` enum of `src/modules/vocabulary.hpp`. -/
inductive Category where
  | BasicVowel
  | BasicConsonant
  | DoubleConsonant
  | CompoundVowel
deriving DecidableEq, Fintype

/-- A vocabulary entry: hangul glyph, latin transliteration, memo hint,
category (`src/modules/vocabulary.cpp` brace-initialises four fields). -/
structure Entry where
  hangul : String
  latin : String
  memo : String
  category : Category
deriving DecidableEq

/-- The static vocabulary table built by `Vocabulary::Vocabulary()` in
`src/modules/vocabulary.cpp` (apostrophes in memo strings are written
as the escape `\x27`; the string values are identical to the source). -/
def entries_ : List Entry := [
  ⟨"ㅏ", "a", "Looks like an \x27a\x27 without the crossbar", Category.BasicVowel⟩,
  ⟨"ㅑ", "ya", "It\x27s \x27ㅏ\x27 with an extra line (adds \x27y\x27)", Category.BasicVowel⟩,
  ⟨"ㅓ", "eo", "Think of \x27eo\x27 as \x27uh\x27 sound", Category.BasicVowel⟩,
  ⟨"ㅕ", "yeo", "It\x27s \x27ㅓ\x27 with an extra line (adds \x27y\x27)", Category.BasicVowel⟩,
  ⟨"ㅗ", "o", "Line \x27o\x27ver the bar", Category.BasicVowel⟩,
  ⟨"ㅛ", "yo", "It\x27s \x27ㅗ\x27 with an extra line (adds \x27y\x27)", Category.BasicVowel⟩,
  ⟨"ㅜ", "u", "Line \x27u\x27nder the bar", Category.BasicVowel⟩,
  ⟨"ㅠ", "yu", "It\x27s \x27ㅜ\x27 with an extra line (adds \x27y\x27)", Category.BasicVowel⟩,
  ⟨"ㅡ", "eu", "A horizontal line, sounds like \x27oo\x27 in \x27good\x27", Category.BasicVowel⟩,
  ⟨"ㅣ", "i", "Looks like the letter \x27i\x27", Category.BasicVowel⟩,
  ⟨"ㅐ", "ae", "\x27ㅏ\x27 plus an extra line", Category.BasicVowel⟩,
  ⟨"ㅔ", "e", "\x27ㅓ\x27 plus an extra line", Category.BasicVowel⟩,
  ⟨"ㄱ", "g/k", "Looks like a \x27gun\x27", Category.BasicConsonant⟩,
  ⟨"ㄴ", "n", "Nike swoosh or \x27n\x27 rotated", Category.BasicConsonant⟩,
  ⟨"ㄷ", "d/t", "Door frame shape", Category.BasicConsonant⟩,
  ⟨"ㄹ", "r/l", "Resembles \x27r\x27 and \x27l\x27 combined", Category.BasicConsonant⟩,
  ⟨"ㅁ", "m", "Looks like a mouth", Category.BasicConsonant⟩,
  ⟨"ㅂ", "b/p", "Bucket shape", Category.BasicConsonant⟩,
  ⟨"ㅅ", "s", "Looks like a mountain", Category.BasicConsonant⟩,
  ⟨"ㅇ", "-/ng", "Circle like \x27zero\x27 sound", Category.BasicConsonant⟩,
  ⟨"ㅈ", "j", "Looks like \x27ㅅ\x27 with a line", Category.BasicConsonant⟩,
  ⟨"ㅊ", "ch", "It\x27s \x27ㅈ\x27 with an extra line on top", Category.BasicConsonant⟩,
  ⟨"ㅋ", "k", "Looks like a \x27key\x27", Category.BasicConsonant⟩,
  ⟨"ㅌ", "t", "Looks like a \x27t\x27 with a hat", Category.BasicConsonant⟩,
  ⟨"ㅍ", "p", "Looks like a \x27pi\x27 symbol", Category.BasicConsonant⟩,
  ⟨"ㅎ", "h", "Man with a hat on", Category.BasicConsonant⟩,
  ⟨"ㄲ", "kk", "Double \x27ㄱ\x27", Category.DoubleConsonant⟩,
  ⟨"ㄸ", "tt", "Double \x27ㄷ\x27", Category.DoubleConsonant⟩,
  ⟨"ㅃ", "pp", "Double \x27ㅂ\x27", Category.DoubleConsonant⟩,
  ⟨"ㅆ", "ss", "Double \x27ㅅ\x27", Category.DoubleConsonant⟩,
  ⟨"ㅉ", "jj", "Double \x27ㅈ\x27", Category.DoubleConsonant⟩,
  ⟨"ㅒ", "yae", "Combination of \x27ㅑ\x27 and \x27ㅣ\x27", Category.CompoundVowel⟩,
  ⟨"ㅖ", "ye", "Combination of \x27ㅕ\x27 and \x27ㅣ\x27", Category.CompoundVowel⟩,
  ⟨"ㅘ", "wa", "\x27ㅗ\x27 plus \x27ㅏ\x27", Category.CompoundVowel⟩,
  ⟨"ㅙ", "wae", "\x27ㅗ\x27 plus \x27ㅐ\x27", Category.CompoundVowel⟩,
  ⟨"ㅚ", "oe", "\x27ㅗ\x27 plus \x27ㅣ\x27", Category.CompoundVowel⟩,
  ⟨"ㅝ", "wo", "\x27ㅜ\x27 plus \x27ㅓ\x27", Category.CompoundVowel⟩,
  ⟨"ㅞ", "we", "\x27ㅜ\x27 plus \x27ㅔ\x27", Category.CompoundVowel⟩,
  ⟨"ㅟ", "wi", "\x27ㅜ\x27 plus \x27ㅣ\x27", Category.CompoundVowel⟩,
  ⟨"ㅢ", "ui", "\x27ㅡ\x27 plus \x27ㅣ\x27", Category.CompoundVowel⟩]

/-- Errors the vocabulary operations can signal: `outOfRange` models the
`std::out_of_range` thrown by `unordered_map::at` on a missing key;
`dataIntegrity` models the `std::runtime_error` thrown when fewer than
`num_options` options could be generated (it records the generated and
requested counts that the source formats into the message). -/
inductive VocabError where
  | outOfRange
  | dataIntegrity (generated : Nat) (requested : Nat)
deriving DecidableEq

deriving instance DecidableEq for Except

/-- The category mask `std::unordered_map<Category, bool>`: a key may be
absent, so a mask is a partial map. -/
abbrev Mask := Category → Option Bool

/-- A mask that, like every mask the application ever builds, contains
all four `Category` keys. -/
def TotalMask (mask : Mask) : Prop := ∀ c : Category, (mask c).isSome

/-- The enabled-entry collection loop of `get_random_enabled_entry`:
for each entry in order, look its category up with `.at` (error on a
missing key) and keep the entry when enabled. -/
def collectEnabled (mask : Mask) : List Entry → Except VocabError (List Entry)
  | [] => Except.ok []
  | e :: rest =>
    match mask e.category with
    | none => Except.error VocabError.outOfRange
    | some b =>
      match collectEnabled mask rest with
      | Except.error err => Except.error err
      | Except.ok tail => Except.ok (if b then e :: tail else tail)

/-- The wrong-entry collection loop of `generate_enabled_question_options`:
`.at` is evaluated before the hangul comparison, so a missing key errors
even for entries whose hangul equals the correct one. -/
def collectWrong (correct : Entry) (mask : Mask) :
    List Entry → Except VocabError (List Entry)
  | [] => Except.ok []
  | e :: rest =>
    match mask e.category with
    | none => Except.error VocabError.outOfRange
    | some b =>
      match collectWrong correct mask rest with
      | Except.error err => Except.error err
      | Except.ok tail =>
        Except.ok (if b && e.hangul != correct.hangul then e :: tail else tail)

/-- `Vocabulary::get_random_enabled_entry`: filter the table by the mask,
return `none` when nothing is enabled, otherwise a uniformly chosen
element (the random draw in `[0, size-1]` is modelled by `r % size`). -/
def get_random_enabled_entry (mask : Mask) (r : Nat) :
    Except VocabError (Option Entry) :=
  match collectEnabled mask entries_ with
  | Except.error err => Except.error err
  | Except.ok [] => Except.ok none
  | Except.ok (e :: es) =>
    Except.ok (some ((e :: es).get ⟨r % (es.length + 1), Nat.mod_lt _ (Nat.succ_pos _)⟩))

/-- `Vocabulary::generate_enabled_question_options`: start from the
correct entry, append the first `num_options - 1` of the shuffled wrong
entries (the loop stops once `options.size() >= num_options`), throw a
data-integrity error when the result is still short, and shuffle the
result.  The two `std::shuffle` calls are the parameters `shuffleW`
(wrong entries) and `shuffleO` (final options). -/
def generate_enabled_question_options (correct : Entry) (mask : Mask)
    (num_options : Nat) (shuffleW shuffleO : List Entry → List Entry) :
    Except VocabError (List Entry) :=
  match collectWrong correct mask entries_ with
  | Except.error err => Except.error err
  | Except.ok wrong =>
    let options := correct :: (shuffleW wrong).take (num_options - 1)
    if options.length < num_options then
      Except.error (VocabError.dataIntegrity options.length num_options)
    else
      Except.ok (shuffleO options)

/-- Specification-side view of the entries an all-keys mask enables. -/
def enabledEntries (mask : Mask) : List Entry :=
  entries_.filter (fun e => (mask e.category).getD false)

/-- Specification-side view of the eligible wrong entries for an
all-keys mask: enabled and of different hangul than the correct entry. -/
def wrongEntries (correct : Entry) (mask : Mask) : List Entry :=
  entries_.filter (fun e => (mask e.category).getD false && e.hangul != correct.hangul)

end modules_vocabulary

namespace core_vocabulary

/-- The `Category` enum of `src/core/vocabulary.hpp`. -/
inductive Category where
  | BasicVowel
  | BasicConsonant
  | DoubleConsonant
  | CompoundVowel
deriving DecidableEq, Fintype

/-- A legacy vocabulary entry (`src/core/vocabulary.hpp`): hangul, latin,
category — no memo field. -/
structure Entry where
  hangul : String
  latin : String
  category : Category
deriving DecidableEq

/-- The static table built by the legacy `Vocabulary::Vocabulary()` in
`src/core/vocabulary.cpp`. -/
def entries : List Entry := [
  ⟨"ㅏ", "a", Category.BasicVowel⟩,
  ⟨"ㅑ", "ya", Category.BasicVowel⟩,
  ⟨"ㅓ", "eo", Category.BasicVowel⟩,
  ⟨"ㅕ", "yeo", Category.BasicVowel⟩,
  ⟨"ㅗ", "o", Category.BasicVowel⟩,
  ⟨"ㅛ", "yo", Category.BasicVowel⟩,
  ⟨"ㅜ", "u", Category.BasicVowel⟩,
  ⟨"ㅠ", "yu", Category.BasicVowel⟩,
  ⟨"ㅡ", "eu", Category.BasicVowel⟩,
  ⟨"ㅣ", "i", Category.BasicVowel⟩,
  ⟨"ㄱ", "g", Category.BasicConsonant⟩,
  ⟨"ㄴ", "n", Category.BasicConsonant⟩,
  ⟨"ㄷ", "d", Category.BasicConsonant⟩,
  ⟨"ㄹ", "r/l", Category.BasicConsonant⟩,
  ⟨"ㅁ", "m", Category.BasicConsonant⟩,
  ⟨"ㅂ", "b", Category.BasicConsonant⟩,
  ⟨"ㅅ", "s", Category.BasicConsonant⟩,
  ⟨"ㅇ", "ng", Category.BasicConsonant⟩,
  ⟨"ㅈ", "j", Category.BasicConsonant⟩,
  ⟨"ㅊ", "ch", Category.BasicConsonant⟩,
  ⟨"ㅋ", "k", Category.BasicConsonant⟩,
  ⟨"ㅌ", "t", Category.BasicConsonant⟩,
  ⟨"ㅍ", "p", Category.BasicConsonant⟩,
  ⟨"ㅎ", "h", Category.BasicConsonant⟩,
  ⟨"ㄲ", "kk", Category.DoubleConsonant⟩,
  ⟨"ㄸ", "tt", Category.DoubleConsonant⟩,
  ⟨"ㅃ", "pp", Category.DoubleConsonant⟩,
  ⟨"ㅆ", "ss", Category.DoubleConsonant⟩,
  ⟨"ㅉ", "jj", Category.DoubleConsonant⟩,
  ⟨"ㅐ", "ae", Category.CompoundVowel⟩,
  ⟨"ㅒ", "yae", Category.CompoundVowel⟩,
  ⟨"ㅔ", "e", Category.CompoundVowel⟩,
  ⟨"ㅖ", "ye", Category.CompoundVowel⟩,
  ⟨"ㅘ", "wa", Category.CompoundVowel⟩,
  ⟨"ㅙ", "wae", Category.CompoundVowel⟩,
  ⟨"ㅚ", "oe", Category.CompoundVowel⟩,
  ⟨"ㅝ", "wo", Category.CompoundVowel⟩,
  ⟨"ㅞ", "we", Category.CompoundVowel⟩,
  ⟨"ㅟ", "wi", Category.CompoundVowel⟩,
  ⟨"ㅢ", "ui", Category.CompoundVowel⟩]

/-- The legacy mask uses `operator[]` on a map constructed with all four
keys, so it is a total function. -/
abbrev CMask := Category → Bool

/-- The sentinel entry `{"N/A", "N/A", Category::BasicVowel}` the legacy
queries return when no suitable entry exists. -/
def sentinel : Entry := ⟨"N/A", "N/A", Category.BasicVowel⟩

/-- Legacy `Vocabulary::get_random_entry`: uniform over the enabled
entries, sentinel when none are enabled. -/
def get_random_entry (category_enabled : CMask) (r : Nat) : Entry :=
  match entries.filter (fun e => category_enabled e.category) with
  | [] => sentinel
  | e :: es => (e :: es).get ⟨r % (es.length + 1), Nat.mod_lt _ (Nat.succ_pos _)⟩

/-- Legacy `Vocabulary::get_random_wrong_entry`: uniform over the enabled
entries whose hangul differs from the correct entry, sentinel when there
are none. -/
def get_random_wrong_entry (category_enabled : CMask) (correct : Entry)
    (r : Nat) : Entry :=
  match entries.filter
      (fun e => category_enabled e.category && e.hangul != correct.hangul) with
  | [] => sentinel
  | e :: es => (e :: es).get ⟨r % (es.length + 1), Nat.mod_lt _ (Nat.succ_pos _)⟩

end core_vocabulary

namespace app

open modules_vocabulary

/-- The session-state enum defined inside `app::run`
(`src/app.cpp`). -/
inductive game_state_t where
  | waiting_for_answer
  | show_result
  | no_entries_enabled
deriving DecidableEq

/-- The quiz-session variables of `app::run`: the state enum, the
per-question variables (`correct_entry`, `correct_index`, `is_hangul`,
the four displayed options), and the score counters
(`total_questions`, `correct_answers`). -/
structure Session where
  current_game_state : game_state_t
  correct_entry : Entry
  correct_index : Nat
  is_hangul : Bool
  options : List Entry
  total_questions : Nat
  correct_answers : Nat
deriving DecidableEq

/-- The `correct_index` search loop of the question-setup block:
first index whose option shares the correct entry's hangul; the
variable keeps its old value when no option matches. -/
def find_correct_index (opts : List Entry) (ce : Entry) (old : Nat) : Nat :=
  match opts.findIdx? (fun e => e.hangul == ce.hangul) with
  | some i => i
  | none => old

/-- The question-setup block of `app::run` (run at startup, after a
category toggle, and on leaving `show_result`): ask the vocabulary for a
random enabled entry; when absent, clear the displayed question and enter
`no_entries_enabled`; when present, flip `is_hangul`, build four options,
locate `correct_index`, and enter `waiting_for_answer`.  Score counters
are untouched.  `r` models the uniform index draw, `coin` the
`get_random_bool()` flip, `shuffleW`/`shuffleO` the two shuffles. -/
def next_question (s : Session) (mask : Mask) (r : Nat) (coin : Bool)
    (shuffleW shuffleO : List Entry → List Entry) : Except VocabError Session :=
  match get_random_enabled_entry mask r with
  | Except.error err => Except.error err
  | Except.ok none =>
    Except.ok { s with current_game_state := game_state_t.no_entries_enabled,
                       options := [] }
  | Except.ok (some ce) =>
    match generate_enabled_question_options ce mask 4 shuffleW shuffleO with
    | Except.error err => Except.error err
    | Except.ok opts =>
      Except.ok { s with current_game_state := game_state_t.waiting_for_answer,
                         correct_entry := ce,
                         correct_index := find_correct_index opts ce s.correct_index,
                         is_hangul := coin,
                         options := opts }

/-- The answer-handling block of `app::run`: it only runs when
`current_game_state == waiting_for_answer` and the selected index is one
of the four buttons (`selected_idx < 4`); then `total_questions` is
incremented, `correct_answers` is incremented exactly when the selection
hits `correct_index`, and the state becomes `show_result`.  Any other
combination leaves the session untouched. -/
def submit_answer (s : Session) (selected_idx : Nat) : Session :=
  if s.current_game_state = game_state_t.waiting_for_answer then
    if selected_idx < 4 then
      { s with total_questions := s.total_questions + 1,
               correct_answers :=
                 if selected_idx = s.correct_index then s.correct_answers + 1
                 else s.correct_answers,
               current_game_state := game_state_t.show_result }
    else s
  else s

end app

/-! ### Helper lemmas about the embedded operations -/

namespace modules_vocabulary

/-- The hangul strings of the static table are pairwise distinct. -/
theorem hangul_nodup : (entries_.map Entry.hangul).Nodup := by decide

/-- Every entry of the table has at least 3 same-category companions of
different hangul. -/
theorem wrong_same_category_count :
    ∀ ce ∈ entries_, 3 ≤ (entries_.filter
      (fun e => (e.category == ce.category) && (e.hangul != ce.hangul))).length := by
  decide

/-- Every category occurs in the table. -/
theorem category_occurs :
    ∀ c : Category, ∃ e ∈ entries_, e.category = c := by decide

theorem collectEnabled_total (mask : Mask) (hm : TotalMask mask) :
    ∀ l : List Entry,
      collectEnabled mask l =
        Except.ok (l.filter (fun e => (mask e.category).getD false))
  | [] => rfl
  | e :: rest => by
    have h := hm e.category
    rcases ho : mask e.category with _ | b
    · rw [ho] at h; simp at h
    · simp only [collectEnabled, ho, collectEnabled_total mask hm rest,
        List.filter_cons]
      cases b <;> simp

theorem collectWrong_total (correct : Entry) (mask : Mask) (hm : TotalMask mask) :
    ∀ l : List Entry,
      collectWrong correct mask l =
        Except.ok (l.filter
          (fun e => (mask e.category).getD false && e.hangul != correct.hangul))
  | [] => rfl
  | e :: rest => by
    have h := hm e.category
    rcases ho : mask e.category with _ | b
    · rw [ho] at h; simp at h
    · simp only [collectWrong, ho, collectWrong_total correct mask hm rest,
        List.filter_cons]
      cases b <;> simp

theorem collectEnabled_missing (mask : Mask) :
    ∀ l : List Entry, (∃ e ∈ l, mask e.category = none) →
      collectEnabled mask l = Except.error VocabError.outOfRange
  | [], h => by simp at h
  | e :: rest, h => by
    rcases ho : mask e.category with _ | b
    · simp [collectEnabled, ho]
    · have : ∃ x ∈ rest, mask x.category = none := by
        rcases h with ⟨x, hx, hnone⟩
        rcases List.mem_cons.mp hx with rfl | hx2
        · rw [ho] at hnone; exact absurd hnone (by simp)
        · exact ⟨x, hx2, hnone⟩
      simp [collectEnabled, ho, collectEnabled_missing mask rest this]

theorem collectWrong_missing (correct : Entry) (mask : Mask) :
    ∀ l : List Entry, (∃ e ∈ l, mask e.category = none) →
      collectWrong correct mask l = Except.error VocabError.outOfRange
  | [], h => by simp at h
  | e :: rest, h => by
    rcases ho : mask e.category with _ | b
    · simp [collectWrong, ho]
    · have : ∃ x ∈ rest, mask x.category = none := by
        rcases h with ⟨x, hx, hnone⟩
        rcases List.mem_cons.mp hx with rfl | hx2
        · rw [ho] at hnone; exact absurd hnone (by simp)
        · exact ⟨x, hx2, hnone⟩
      simp [collectWrong, ho, collectWrong_missing correct mask rest this]

theorem mem_enabledEntries {mask : Mask} {e : Entry} :
    e ∈ enabledEntries mask ↔ e ∈ entries_ ∧ (mask e.category).getD false = true := by
  simp [enabledEntries, List.mem_filter]

theorem mem_wrongEntries {correct : Entry} {mask : Mask} {e : Entry} :
    e ∈ wrongEntries correct mask ↔
      e ∈ entries_ ∧ (mask e.category).getD false = true ∧ e.hangul ≠ correct.hangul := by
  simp [wrongEntries, List.mem_filter, and_assoc]

/-- Under an all-keys mask, `get_random_enabled_entry` with an empty
enabled set returns `none`. -/
theorem get_random_enabled_entry_of_empty (mask : Mask) (r : Nat)
    (hm : TotalMask mask) (h : enabledEntries mask = []) :
    get_random_enabled_entry mask r = Except.ok none := by
  unfold get_random_enabled_entry
  rw [collectEnabled_total mask hm entries_]
  unfold enabledEntries at h
  rw [h]

/-- Under an all-keys mask with a nonempty enabled set,
`get_random_enabled_entry` returns some member of the enabled set. -/
theorem get_random_enabled_entry_of_nonempty (mask : Mask) (r : Nat)
    (hm : TotalMask mask) (h : enabledEntries mask ≠ []) :
    ∃ en ∈ enabledEntries mask,
      get_random_enabled_entry mask r = Except.ok (some en) := by
  unfold get_random_enabled_entry
  rw [collectEnabled_total mask hm entries_]
  rcases hl : enabledEntries mask with _ | ⟨e, es⟩
  · exact absurd hl h
  · unfold enabledEntries at hl
    rw [hl]
    exact ⟨(e :: es).get ⟨r % (es.length + 1), Nat.mod_lt _ (Nat.succ_pos _)⟩,
      List.get_mem _ _ _, rfl⟩

/-- Under an all-keys mask, `generate_enabled_question_options` reduces to
the pure computation over the eligible wrong entries. -/
theorem generate_total (correct : Entry) (mask : Mask) (num_options : Nat)
    (shuffleW shuffleO : List Entry → List Entry) (hm : TotalMask mask) :
    generate_enabled_question_options correct mask num_options shuffleW shuffleO =
      (if (correct :: (shuffleW (wrongEntries correct mask)).take
            (num_options - 1)).length < num_options then
         Except.error (VocabError.dataIntegrity
           (correct :: (shuffleW (wrongEntries correct mask)).take
             (num_options - 1)).length num_options)
       else
         Except.ok (shuffleO (correct ::
           (shuffleW (wrongEntries correct mask)).take (num_options - 1)))) := by
  unfold generate_enabled_question_options
  rw [collectWrong_total correct mask hm entries_]
  rfl

/-- Success path of `generate_enabled_question_options` with the default
four options: with an all-keys mask, permutation-shuffles, and at least
three eligible wrong entries, the result is exactly four entries, contains
the correct one exactly once, is pairwise distinct by hangul, and draws
every other element from the eligible wrong entries. -/
theorem generate_options_spec (correct : Entry) (mask : Mask)
    (shuffleW shuffleO : List Entry → List Entry) (hm : TotalMask mask)
    (hW : ∀ l, (shuffleW l).Perm l) (hO : ∀ l, (shuffleO l).Perm l)
    (helig : 3 ≤ (wrongEntries correct mask).length) :
    ∃ opts, generate_enabled_question_options correct mask 4 shuffleW shuffleO =
        Except.ok opts ∧
      opts.length = 4 ∧
      opts.count correct = 1 ∧
      (opts.map Entry.hangul).Nodup ∧
      correct ∈ opts ∧
      (∀ e ∈ opts, e.hangul ≠ correct.hangul → e ∈ wrongEntries correct mask) := by
  have hlenW : (shuffleW (wrongEntries correct mask)).length =
      (wrongEntries correct mask).length := (hW _).length_eq
  have htake : ((shuffleW (wrongEntries correct mask)).take 3).length = 3 := by
    rw [List.length_take, hlenW]
    exact Nat.min_eq_left helig
  have hmemW : ∀ e ∈ (shuffleW (wrongEntries correct mask)).take 3,
      e ∈ wrongEntries correct mask := by
    intro e he
    exact (hW _).mem_iff.mp (List.take_subset _ _ he)
  have hneW : ∀ e ∈ (shuffleW (wrongEntries correct mask)).take 3,
      e.hangul ≠ correct.hangul := by
    intro e he
    exact (mem_wrongEntries.mp (hmemW e he)).2.2
  have hlenO : (correct :: (shuffleW (wrongEntries correct mask)).take 3).length = 4 := by
    simp [htake]
  rw [generate_total correct mask 4 shuffleW shuffleO hm]
  simp only [show (4 : Nat) - 1 = 3 from rfl]
  rw [if_neg (by rw [hlenO]; exact Nat.lt_irrefl 4)]
  refine ⟨_, rfl, ?_, ?_, ?_, ?_, ?_⟩
  · rw [(hO _).length_eq, hlenO]
  · rw [(hO _).count_eq, List.count_cons_self,
      List.count_eq_zero.mpr (fun hc => hneW correct hc rfl)]
  · have hwn : ((wrongEntries correct mask).map Entry.hangul).Nodup :=
      List.Nodup.sublist ((List.filter_sublist entries_).map Entry.hangul) hangul_nodup
    have hsn : ((shuffleW (wrongEntries correct mask)).map Entry.hangul).Nodup :=
      (((hW _).map Entry.hangul).nodup_iff).mpr hwn
    have htn : (((shuffleW (wrongEntries correct mask)).take 3).map Entry.hangul).Nodup := by
      rw [List.map_take]
      exact List.Nodup.sublist (List.take_sublist _ _) hsn
    have hcons : ((correct :: (shuffleW (wrongEntries correct mask)).take 3).map
        Entry.hangul).Nodup := by
      rw [List.map_cons]
      refine List.nodup_cons.mpr ⟨?_, htn⟩
      intro hmem
      rcases List.mem_map.mp hmem with ⟨e, he, heq⟩
      exact hneW e he heq
    exact (((hO _).map Entry.hangul).nodup_iff).mpr hcons
  · exact (hO _).mem_iff.mpr (List.mem_cons_self _ _)
  · intro e he hne
    rcases List.mem_cons.mp ((hO _).mem_iff.mp he) with rfl | h2
    · exact absurd rfl hne
    · exact hmemW e h2

/-- An entry of the table whose category a total mask enables has at
least three eligible wrong companions: the rest of its own category. -/
theorem wrongEntries_length_ge (mask : Mask) (ce : Entry)
    (hce : ce ∈ entries_) (hen : (mask ce.category).getD false = true) :
    3 ≤ (wrongEntries ce mask).length := by
  have hmono : (entries_.filter
      (fun e => (e.category == ce.category) && (e.hangul != ce.hangul))).length ≤
      (wrongEntries ce mask).length := by
    unfold wrongEntries
    rw [← List.countP_eq_length_filter, ← List.countP_eq_length_filter]
    refine List.countP_mono_left ?_
    intro e hel hp
    have hcat : e.category = ce.category := by
      have := (Bool.and_eq_true _ _).mp hp
      exact beq_iff_eq.mp this.1
    have hne : (e.hangul != ce.hangul) = true := ((Bool.and_eq_true _ _).mp hp).2
    rw [hcat, hen]
    simpa using hne
  exact le_trans (wrong_same_category_count ce hce) hmono

/-- The all-keys, all-enabled mask the application starts with. -/
def maskAll : Mask := fun _ => some true

/-- The all-keys, all-disabled mask (every toggle off). -/
def maskNone : Mask := fun _ => some false

/-- The first entry of the static table. -/
def entryA : Entry :=
  ⟨"ㅏ", "a", "Looks like an \x27a\x27 without the crossbar", Category.BasicVowel⟩

theorem getD_true_iff {mask : Mask} {c : Category} (h : (mask c).isSome) :
    (mask c).getD false = true ↔ mask c = some true := by
  rcases ho : mask c with _ | b
  · rw [ho] at h; simp at h
  · cases b <;> simp

/-- A `some` result of `get_random_enabled_entry` under an all-keys mask
is a member of the enabled entries. -/
theorem get_random_enabled_entry_some_mem {mask : Mask} {r : Nat} {ce : Entry}
    (hm : TotalMask mask)
    (h : get_random_enabled_entry mask r = Except.ok (some ce)) :
    ce ∈ enabledEntries mask := by
  unfold get_random_enabled_entry at h
  rw [collectEnabled_total mask hm entries_] at h
  unfold enabledEntries
  rcases hl : List.filter (fun e => (mask e.category).getD false) entries_ with _ | ⟨e, es⟩
  · rw [hl] at h; simp at h
  · rw [hl] at h
    simp only [Except.ok.injEq, Option.some.injEq] at h
    rw [hl, ← h]
    exact List.get_mem _ _ _

/-- A list whose members all satisfy `p` has a first index satisfying it. -/
theorem findIdx_spec {p : Entry → Bool} :
    ∀ {l : List Entry}, (∃ e ∈ l, p e = true) →
      ∃ i, l.findIdx? p = some i ∧
        ∃ h : i < l.length, p (l.get ⟨i, h⟩) = true := by
  intro l hl
  induction l with
  | nil => simp at hl
  | cons a t ih =>
    by_cases hpa : p a = true
    · exact ⟨0, by simp [List.findIdx?_cons, hpa], Nat.succ_pos _, by simpa using hpa⟩
    · have hex : ∃ e ∈ t, p e = true := by
        rcases hl with ⟨e, he, hpe⟩
        rcases List.mem_cons.mp he with rfl | he2
        · exact absurd hpe hpa
        · exact ⟨e, he2, hpe⟩
      rcases ih hex with ⟨i, hfind, hlt, hget⟩
      refine ⟨i + 1, ?_, Nat.succ_lt_succ hlt, by simpa using hget⟩
      rw [List.findIdx?_cons, if_neg (by simpa using hpa), List.findIdx?_succ, hfind]
      rfl

/-- Failure analysis of `generate_enabled_question_options` under an
all-keys mask: it fails exactly when the correct entry plus the eligible
wrong entries number fewer than `num_options`, and every failure is the
data-integrity error. -/
theorem generate_failure_characterization (correct : Entry) (mask : Mask)
    (num_options : Nat) (shuffleW shuffleO : List Entry → List Entry)
    (hm : TotalMask mask) (hW : ∀ l, (shuffleW l).Perm l) :
    ((∃ err, generate_enabled_question_options correct mask num_options
        shuffleW shuffleO = Except.error err) ↔
      (wrongEntries correct mask).length + 1 < num_options) ∧
    (∀ err, generate_enabled_question_options correct mask num_options
        shuffleW shuffleO = Except.error err →
      ∃ g req, err = VocabError.dataIntegrity g req) := by
  rw [generate_total correct mask num_options shuffleW shuffleO hm]
  have hlen : (correct :: (shuffleW (wrongEntries correct mask)).take
      (num_options - 1)).length =
      1 + Nat.min (num_options - 1) (wrongEntries correct mask).length := by
    simp [List.length_take, (hW _).length_eq, Nat.add_comm]
  by_cases hc : (correct :: (shuffleW (wrongEntries correct mask)).take
      (num_options - 1)).length < num_options
  · rw [if_pos hc]
    rw [hlen] at hc
    have hlt : (wrongEntries correct mask).length + 1 < num_options := by
      have hc2 : 1 + min (num_options - 1) (wrongEntries correct mask).length
          < num_options := hc
      rw [Nat.min_def] at hc2
      split_ifs at hc2 <;> omega
    refine ⟨iff_of_true ⟨_, rfl⟩ hlt, ?_⟩
    intro err herr
    injection herr with h
    exact ⟨_, _, h.symm⟩
  · rw [if_neg hc]
    rw [hlen] at hc
    have hnlt : ¬((wrongEntries correct mask).length + 1 < num_options) := by
      have hc2 : ¬(1 + min (num_options - 1) (wrongEntries correct mask).length
          < num_options) := hc
      rw [Nat.min_def] at hc2
      split_ifs at hc2 <;> omega
    refine ⟨iff_of_false ?_ hnlt, ?_⟩
    · rintro ⟨err, h⟩
      exact Except.noConfusion h
    · intro err herr
      exact Except.noConfusion herr

end modules_vocabulary

/-! ### Witness fixtures -/

namespace modules_vocabulary

/-- A mask missing the `CompoundVowel` key (used to exercise the
missing-key behaviour). -/
def maskMissing : Mask :=
  fun c => if c = Category.CompoundVowel then none else some true

end modules_vocabulary

namespace app

open modules_vocabulary

/-- A session in `waiting_for_answer` with `correct_index = 2` and four
displayed options. -/
def sessionWaiting : Session :=
  ⟨game_state_t.waiting_for_answer, entryA, 2, true,
   [entryA, entryA, entryA, entryA], 0, 0⟩

/-- A session in `show_result`. -/
def sessionShowing : Session :=
  ⟨game_state_t.show_result, entryA, 2, true,
   [entryA, entryA, entryA, entryA], 3, 1⟩

end app

/-! ### The claims -/

open modules_vocabulary

/-- Claim C1: for every correct entry and all-keys mask with at least
four distinct eligible entries (the correct entry plus at least three
enabled entries of different hangul),
`generate_enabled_question_options(correct, mask, 4)` returns exactly
four entries containing the correct entry exactly once, mutually
distinct by hangul, with every non-correct element drawn from the
enabled entries whose hangul differs from the correct entry's. -/
theorem unique_options_returns_four_unique (correct : Entry) (mask : Mask)
    (shuffleW shuffleO : List Entry → List Entry) (hm : TotalMask mask)
    (hW : ∀ l, (shuffleW l).Perm l) (hO : ∀ l, (shuffleO l).Perm l)
    (helig : 3 ≤ (wrongEntries correct mask).length) :
    ∃ opts, generate_enabled_question_options correct mask 4 shuffleW shuffleO =
        Except.ok opts ∧
      opts.length = 4 ∧
      opts.count correct = 1 ∧
      (opts.map Entry.hangul).Nodup ∧
      (∀ e ∈ opts, e.hangul ≠ correct.hangul → e ∈ wrongEntries correct mask) := by
  rcases generate_options_spec correct mask shuffleW shuffleO hm hW hO helig with
    ⟨opts, hok, hlen, hcount, hnodup, _, hdrawn⟩
  exact ⟨opts, hok, hlen, hcount, hnodup, hdrawn⟩

/-- Witness for C1 at the all-enabled mask, the first entry, and
identity shuffles. -/
theorem unique_options_returns_four_unique_witness :
    ∃ opts, generate_enabled_question_options entryA maskAll 4 id id =
        Except.ok opts ∧
      opts.length = 4 ∧
      opts.count entryA = 1 ∧
      (opts.map Entry.hangul).Nodup ∧
      (∀ e ∈ opts, e.hangul ≠ entryA.hangul → e ∈ wrongEntries entryA maskAll) :=
  unique_options_returns_four_unique entryA maskAll id id
    (fun _ => rfl) (fun l => List.Perm.refl l) (fun l => List.Perm.refl l) (by decide)

/-- Claim C2: under an all-keys mask, `get_random_enabled_entry` returns
some entry whose category is enabled whenever at least one entry's
category is enabled, and returns `none` when no entry's category is
enabled. -/
theorem random_enabled_entry_respects_mask (mask : Mask) (r : Nat)
    (hm : TotalMask mask) :
    ((∃ e ∈ entries_, mask e.category = some true) →
      ∃ en, get_random_enabled_entry mask r = Except.ok (some en) ∧
        mask en.category = some true) ∧
    ((∀ e ∈ entries_, mask e.category ≠ some true) →
      get_random_enabled_entry mask r = Except.ok none) := by
  constructor
  · rintro ⟨e, he, htrue⟩
    have hne : enabledEntries mask ≠ [] := by
      refine List.ne_nil_of_mem (a := e) ?_
      exact mem_enabledEntries.mpr ⟨he, by rw [htrue]; rfl⟩
    rcases get_random_enabled_entry_of_nonempty mask r hm hne with ⟨en, hmem, hok⟩
    rcases mem_enabledEntries.mp hmem with ⟨_, hget⟩
    exact ⟨en, hok, (getD_true_iff (hm en.category)).mp hget⟩
  · intro hall
    refine get_random_enabled_entry_of_empty mask r hm ?_
    unfold enabledEntries
    rw [List.filter_eq_nil_iff]
    intro e he hget
    exact hall e he ((getD_true_iff (hm e.category)).mp hget)

/-- Witness for C2 at the all-enabled mask. -/
theorem random_enabled_entry_respects_mask_witness :
    ∃ en, get_random_enabled_entry maskAll 0 = Except.ok (some en) ∧
      maskAll en.category = some true :=
  (random_enabled_entry_respects_mask maskAll 0 (fun _ => rfl)).1
    ⟨entryA, by decide, rfl⟩

/-- Claim C3: from any starting session and any all-keys mask, the
question-setup block enters `no_entries_enabled` and clears the
displayed question (leaving the score untouched) when the vocabulary
yields no enabled entry; when an entry is returned, it sets
`is_hangul` from the coin flip, builds four options, computes
`correct_index` so that the option there shares the correct entry's
hangul, and enters `waiting_for_answer`, again leaving the score
untouched. -/
theorem next_question_state_machine (s : app.Session) (mask : Mask) (r : Nat)
    (coin : Bool) (shuffleW shuffleO : List Entry → List Entry)
    (hm : TotalMask mask)
    (hW : ∀ l, (shuffleW l).Perm l) (hO : ∀ l, (shuffleO l).Perm l) :
    (get_random_enabled_entry mask r = Except.ok none →
      app.next_question s mask r coin shuffleW shuffleO =
        Except.ok { s with current_game_state := app.game_state_t.no_entries_enabled,
                           options := [] }) ∧
    (∀ ce, get_random_enabled_entry mask r = Except.ok (some ce) →
      ∃ s', app.next_question s mask r coin shuffleW shuffleO = Except.ok s' ∧
        s'.current_game_state = app.game_state_t.waiting_for_answer ∧
        s'.is_hangul = coin ∧
        s'.correct_entry = ce ∧
        s'.options.length = 4 ∧
        (∃ h : s'.correct_index < s'.options.length,
          (s'.options.get ⟨s'.correct_index, h⟩).hangul = ce.hangul) ∧
        s'.total_questions = s.total_questions ∧
        s'.correct_answers = s.correct_answers) := by
  constructor
  · intro hnone
    unfold app.next_question
    rw [hnone]
  · intro ce hsome
    have hcem := get_random_enabled_entry_some_mem hm hsome
    rcases mem_enabledEntries.mp hcem with ⟨hent, hget⟩
    have helig := wrongEntries_length_ge mask ce hent hget
    rcases generate_options_spec ce mask shuffleW shuffleO hm hW hO helig with
      ⟨opts, hok, hlen, _, _, hcmem, _⟩
    have hfind : ∃ e ∈ opts, (e.hangul == ce.hangul) = true :=
      ⟨ce, hcmem, beq_self_eq_true _⟩
    rcases findIdx_spec hfind with ⟨i, hidx, hlt, hp⟩
    have hci : app.find_correct_index opts ce s.correct_index = i := by
      unfold app.find_correct_index
      rw [hidx]
    refine ⟨{ s with current_game_state := app.game_state_t.waiting_for_answer,
                     correct_entry := ce,
                     correct_index := app.find_correct_index opts ce s.correct_index,
                     is_hangul := coin,
                     options := opts }, ?_, rfl, rfl, rfl, hlen, ?_, rfl, rfl⟩
    · unfold app.next_question
      rw [hsome]
      simp only [hok]
    · simp only [hci]
      exact ⟨hlt, beq_iff_eq.mp hp⟩

/-- Witness for C3: from a concrete waiting session under the
all-enabled mask, the setup block produces a well-formed question. -/
theorem next_question_state_machine_witness :
    ∃ s', app.next_question app.sessionWaiting maskAll 0 true id id =
        Except.ok s' ∧
      s'.current_game_state = app.game_state_t.waiting_for_answer ∧
      s'.is_hangul = true ∧
      s'.correct_entry = entryA ∧
      s'.options.length = 4 ∧
      (∃ h : s'.correct_index < s'.options.length,
        (s'.options.get ⟨s'.correct_index, h⟩).hangul = entryA.hangul) ∧
      s'.total_questions = app.sessionWaiting.total_questions ∧
      s'.correct_answers = app.sessionWaiting.correct_answers :=
  (next_question_state_machine app.sessionWaiting maskAll 0 true id id
      (fun _ => rfl) (fun l => List.Perm.refl l) (fun l => List.Perm.refl l)).2
    entryA (by decide)

/-- Claim C4: in `waiting_for_answer`, submitting an index in `[0,3]`
increments `total_questions` by one, increments `correct_answers`
exactly when the index hits `correct_index`, and moves the session to
`show_result`. -/
theorem submit_answer_scores_and_transitions (s : app.Session) (idx : Nat)
    (hstate : s.current_game_state = app.game_state_t.waiting_for_answer)
    (hidx : idx ≤ 3) :
    (app.submit_answer s idx).total_questions = s.total_questions + 1 ∧
    (idx = s.correct_index →
      (app.submit_answer s idx).correct_answers = s.correct_answers + 1) ∧
    (idx ≠ s.correct_index →
      (app.submit_answer s idx).correct_answers = s.correct_answers) ∧
    (app.submit_answer s idx).current_game_state = app.game_state_t.show_result := by
  unfold app.submit_answer
  rw [if_pos hstate, if_pos (by omega)]
  refine ⟨rfl, ?_, ?_, rfl⟩
  · intro h
    simp [h]
  · intro h
    simp [h]

/-- Witness for C4: submitting the correct index 2 from a concrete
waiting session. -/
theorem submit_answer_scores_and_transitions_witness :
    (app.submit_answer app.sessionWaiting 2).total_questions =
      app.sessionWaiting.total_questions + 1 ∧
    (2 = app.sessionWaiting.correct_index →
      (app.submit_answer app.sessionWaiting 2).correct_answers =
        app.sessionWaiting.correct_answers + 1) ∧
    (2 ≠ app.sessionWaiting.correct_index →
      (app.submit_answer app.sessionWaiting 2).correct_answers =
        app.sessionWaiting.correct_answers) ∧
    (app.submit_answer app.sessionWaiting 2).current_game_state =
      app.game_state_t.show_result :=
  submit_answer_scores_and_transitions app.sessionWaiting 2 rfl (by omega)

/-- Claim C5: outside `waiting_for_answer`, and in `waiting_for_answer`
with an index at or beyond the options length (four in every reachable
waiting state), the answer handling leaves the session — scores, state
and question — entirely unchanged. -/
theorem submit_answer_invalid_noop (s : app.Session) (idx : Nat) :
    (s.current_game_state ≠ app.game_state_t.waiting_for_answer →
      app.submit_answer s idx = s) ∧
    (s.current_game_state = app.game_state_t.waiting_for_answer →
      s.options.length = 4 → s.options.length ≤ idx →
      app.submit_answer s idx = s) := by
  constructor
  · intro h
    unfold app.submit_answer
    rw [if_neg h]
  · intro h hlen hout
    unfold app.submit_answer
    rw [if_pos h, if_neg (by omega)]

/-- Witness for C5: a `show_result` session ignores a submit, and a
waiting session ignores an out-of-range index. -/
theorem submit_answer_invalid_noop_witness :
    app.submit_answer app.sessionShowing 0 = app.sessionShowing ∧
    app.submit_answer app.sessionWaiting 7 = app.sessionWaiting :=
  ⟨(submit_answer_invalid_noop app.sessionShowing 0).1 (by decide),
   (submit_answer_invalid_noop app.sessionWaiting 7).2 rfl rfl (by decide)⟩

/-- Claim C6: under an all-keys mask, the unique-options operation fails
exactly when fewer than `num_options` distinct candidates exist (the
correct entry plus the enabled wrong entries of different hangul), and
every failure is the data-integrity error. -/
theorem unique_options_fails_iff_too_few_candidates (correct : Entry)
    (mask : Mask) (num_options : Nat)
    (shuffleW shuffleO : List Entry → List Entry) (hm : TotalMask mask)
    (hW : ∀ l, (shuffleW l).Perm l) :
    ((∃ err, generate_enabled_question_options correct mask num_options
        shuffleW shuffleO = Except.error err) ↔
      (wrongEntries correct mask).length + 1 < num_options) ∧
    (∀ err, generate_enabled_question_options correct mask num_options
        shuffleW shuffleO = Except.error err →
      ∃ g req, err = VocabError.dataIntegrity g req) :=
  generate_failure_characterization correct mask num_options shuffleW shuffleO hm hW

/-- Witness for C6 at the all-disabled mask: the operation fails with
the data-integrity error because only one candidate exists. -/
theorem unique_options_fails_iff_too_few_candidates_witness :
    ((∃ err, generate_enabled_question_options entryA maskNone 4 id id =
        Except.error err) ↔
      (wrongEntries entryA maskNone).length + 1 < 4) ∧
    (∀ err, generate_enabled_question_options entryA maskNone 4 id id =
        Except.error err →
      ∃ g req, err = VocabError.dataIntegrity g req) :=
  unique_options_fails_iff_too_few_candidates entryA maskNone 4 id id
    (fun _ => rfl) (fun l => List.Perm.refl l)

/-- Claim C7: in both static vocabulary tables, every one of the four
categories has at least four distinct entries. -/
theorem every_category_has_at_least_four_entries :
    (∀ c : Category,
      4 ≤ (entries_.filter (fun e => e.category == c)).length ∧
      (entries_.filter (fun e => e.category == c)).Nodup) ∧
    (∀ c : core_vocabulary.Category,
      4 ≤ (core_vocabulary.entries.filter (fun e => e.category == c)).length ∧
      (core_vocabulary.entries.filter (fun e => e.category == c)).Nodup) :=
  ⟨by decide, by decide⟩

/-- Claim C8: in both static vocabulary tables, no two entries share the
same hangul value. -/
theorem vocabulary_hangul_unique :
    entries_.Pairwise (fun a b => a.hangul ≠ b.hangul) ∧
    core_vocabulary.entries.Pairwise (fun a b => a.hangul ≠ b.hangul) :=
  ⟨by decide, by decide⟩

/-- Counterexample to C9 as stated: `maskNone` contains all four
`Category` keys, yet `generate_enabled_question_options` does not return
a value there — it raises the data-integrity error — so "both operations
are total" fails for all-keys masks. -/
theorem generate_not_total_on_all_keys_mask :
    TotalMask maskNone ∧
    generate_enabled_question_options entryA maskNone 4 id id =
      Except.error (VocabError.dataIntegrity 1 4) :=
  ⟨fun _ => rfl, by decide⟩

/-- Amended C9: a mask lacking any `Category` key makes both operations
raise the out-of-range lookup error rather than return a value, and
under an all-keys mask the lookup error is unreachable:
`get_random_enabled_entry` always returns a value, and the only error
`generate_enabled_question_options` can raise is the data-integrity
error. -/
theorem lookup_error_characterization (mask : Mask) (correct : Entry)
    (r : Nat) (num_options : Nat) (shuffleW shuffleO : List Entry → List Entry) :
    ((∃ c, mask c = none) →
      get_random_enabled_entry mask r = Except.error VocabError.outOfRange ∧
      generate_enabled_question_options correct mask num_options shuffleW
        shuffleO = Except.error VocabError.outOfRange) ∧
    (TotalMask mask →
      (∃ o, get_random_enabled_entry mask r = Except.ok o) ∧
      (∀ err, generate_enabled_question_options correct mask num_options
          shuffleW shuffleO = Except.error err →
        ∃ g req, err = VocabError.dataIntegrity g req)) := by
  constructor
  · rintro ⟨c, hc⟩
    rcases category_occurs c with ⟨e, he, hcat⟩
    have hex : ∃ e ∈ entries_, mask e.category = none :=
      ⟨e, he, by rw [hcat]; exact hc⟩
    constructor
    · unfold get_random_enabled_entry
      rw [collectEnabled_missing mask entries_ hex]
    · unfold generate_enabled_question_options
      rw [collectWrong_missing correct mask entries_ hex]
  · intro hm
    constructor
    · unfold get_random_enabled_entry
      rw [collectEnabled_total mask hm entries_]
      rcases hl : List.filter (fun e => (mask e.category).getD false) entries_ with
        _ | ⟨e, es⟩
      · rw [hl]
        exact ⟨none, rfl⟩
      · rw [hl]
        exact ⟨_, rfl⟩
    · intro err herr
      rw [generate_total correct mask num_options shuffleW shuffleO hm] at herr
      by_cases hc : (correct :: (shuffleW (wrongEntries correct mask)).take
          (num_options - 1)).length < num_options
      · rw [if_pos hc] at herr
        injection herr with h
        exact ⟨_, _, h.symm⟩
      · rw [if_neg hc] at herr
        exact Except.noConfusion herr

/-- Witness for the amended C9: a mask missing the `CompoundVowel` key
errors out of range; the all-enabled mask reaches no lookup error. -/
theorem lookup_error_characterization_witness :
    (get_random_enabled_entry maskMissing 0 = Except.error VocabError.outOfRange ∧
     generate_enabled_question_options entryA maskMissing 4 id id =
       Except.error VocabError.outOfRange) ∧
    ((∃ o, get_random_enabled_entry maskAll 0 = Except.ok o) ∧
     (∀ err, generate_enabled_question_options entryA maskAll 4 id id =
         Except.error err →
       ∃ g req, err = VocabError.dataIntegrity g req)) :=
  ⟨(lookup_error_characterization maskMissing entryA 0 4 id id).1
     ⟨Category.CompoundVowel, rfl⟩,
   (lookup_error_characterization maskAll entryA 0 4 id id).2 (fun _ => rfl)⟩

/-- Claim C10: the legacy store returns the `"N/A"` sentinel when no
entry's category is enabled, and `get_random_wrong_entry` returns the
sentinel when no enabled entry differs from the correct one by hangul. -/
theorem legacy_sentinel_on_no_candidates
    (category_enabled : core_vocabulary.CMask)
    (correct : core_vocabulary.Entry) (r : Nat) :
    ((∀ e ∈ core_vocabulary.entries, category_enabled e.category = false) →
      core_vocabulary.get_random_entry category_enabled r =
        core_vocabulary.sentinel) ∧
    ((∀ e ∈ core_vocabulary.entries,
        category_enabled e.category = true → e.hangul = correct.hangul) →
      core_vocabulary.get_random_wrong_entry category_enabled correct r =
        core_vocabulary.sentinel) := by
  constructor
  · intro h
    have hnil : core_vocabulary.entries.filter
        (fun e => category_enabled e.category) = [] := by
      rw [List.filter_eq_nil_iff]
      intro e he
      rw [h e he]
      exact Bool.false_ne_true
    unfold core_vocabulary.get_random_entry
    rw [hnil]
  · intro h
    have hnil : core_vocabulary.entries.filter
        (fun e => category_enabled e.category && e.hangul != correct.hangul) = [] := by
      rw [List.filter_eq_nil_iff]
      intro e he hp
      rcases Bool.and_eq_true _ _ |>.mp hp with ⟨hen, hne⟩
      exact bne_iff_ne.mp hne (h e he hen)
    unfold core_vocabulary.get_random_wrong_entry
    rw [hnil]

/-- Witness for C10 at the all-disabled legacy mask. -/
theorem legacy_sentinel_on_no_candidates_witness :
    core_vocabulary.get_random_entry (fun _ => false) 0 =
      core_vocabulary.sentinel ∧
    core_vocabulary.get_random_wrong_entry (fun _ => false)
      ⟨"ㅏ", "a", core_vocabulary.Category.BasicVowel⟩ 0 =
      core_vocabulary.sentinel :=
  ⟨(legacy_sentinel_on_no_candidates (fun _ => false)
      ⟨"ㅏ", "a", core_vocabulary.Category.BasicVowel⟩ 0).1 (fun _ _ => rfl),
   (legacy_sentinel_on_no_candidates (fun _ => false)
      ⟨"ㅏ", "a", core_vocabulary.Category.BasicVowel⟩ 0).2
     (fun _ _ hen => absurd hen Bool.false_ne_true)⟩
